import Mathlib

/-!
Shallow embedding of the dwd-downloader repository (celine-eu/dwd-downloader),
covering the transfer engine (src/dwd_downloader/utils.py, download_to_storage),
the storage layer (src/dwd_downloader/storage.py, FSStorage / S3Storage /
_IterableReader), and the incremental mirror orchestrator
(src/dwd_downloader/mirror.py, IconDatasetMirror) together with its
incremental-state tracker (_load_metadata / _already_downloaded /
_mark_downloaded) and the HTML listing prober
(_get_available_files_from_html).

Bytes are modelled as Nat, byte strings as List Nat, and Python str values as
Lean String.  External effects (HTTP responses, storage write success, HTML
pages) are inputs to the embedded functions; each embedded function returns,
besides its Python return value, the observable events it performed (storage
writes, probe and transfer calls), so that the spec claims about "never
invokes" / "writes nothing" become statements about those event logs.
-/

set_option maxHeartbeats 1000000

namespace Dwd

/-- Bytes of one chunk yielded by the streaming pipeline (one Python bytes object). -/
abbrev Chunk := List Nat

/-! ### Character-level string helpers

Python string primitives (`str.endswith`, `in`, `int(...)`, slicing) are
modelled by explicit recursions on the character list of a Lean String, so
that all predicates are kernel-evaluable. -/

/-- Check that the first character list is a leading segment of the second. -/
def charsHasPre : List Char → List Char → Bool
  | [], _ => true
  | _ :: _, [] => false
  | a :: as, b :: bs => a == b && charsHasPre as bs

/-- Check that the first character list occurs contiguously inside the second,
modelling the Python expression needle in hay. -/
def charsHasSub : List Char → List Char → Bool
  | needle, [] => needle.isEmpty
  | needle, c :: bs => charsHasPre needle (c :: bs) || charsHasSub needle bs

/-- Python needle in hay on strings. -/
def strContainsSub (hay needle : String) : Bool :=
  charsHasSub needle.data hay.data

/-- Python s.endswith(suf). -/
def strEndsWith (s suf : String) : Bool :=
  charsHasPre suf.data.reverse s.data.reverse

/-- Python s[:-n] for n ≤ len(s) (character based slicing). -/
def strDropRight (s : String) (n : Nat) : String :=
  ⟨s.data.take (s.data.length - n)⟩

/-- Accumulating decimal parse of a character list; none on a non-digit. -/
def digitsToNat : List Char → Nat → Option Nat
  | [], acc => some acc
  | c :: cs, acc =>
      if c.isDigit then digitsToNat cs (acc * 10 + (c.toNat - 48)) else none

/-- Python int(s) for the nonnegative decimal strings used as run identifiers
(the config run list holds hour strings such as "00"); none models the
ValueError raised on any other input. -/
def pyInt (s : String) : Option Nat :=
  match s.data with
  | [] => none
  | l => digitsToNat l 0

/-! ### Remote listing prober — mirror.py, IconDatasetMirror._get_available_files_from_html

The fetched index page is modelled as Except Unit (List (Option String)):
error covers any network failure or non-2xx status (requests.get raising, or
resp.raise_for_status()), and an ok page is the list of anchor tags found by
BeautifulSoup, each carrying an optional href attribute. -/

/-- Model of a fetched HTML index page: error for network/HTTP failure,
otherwise the anchor tags with their optional href attributes. -/
abbrev HtmlPage := Except Unit (List (Option String))

/-- Python a.get("href", "") on an anchor tag. -/
def hrefOf (a : Option String) : String := a.getD ""

/-- The filter applied to each anchor in the list comprehension of
_get_available_files_from_html: href ends in ".grib2.bz2" and contains the
date string. -/
def anchorKeep (dateStr : String) (a : Option String) : Bool :=
  strEndsWith (hrefOf a) ".grib2.bz2" && strContainsSub (hrefOf a) dateStr

/-- IconDatasetMirror._get_available_files_from_html: on a fetched page,
the hrefs of the anchors passing the filter (for a kept anchor the href
attribute is necessarily present, since the empty default never ends in
".grib2.bz2", so reading a.get("href","") again is the same as a["href"]);
on any network or parse failure, the empty list. -/
def getAvailableFilesFromHtml (page : HtmlPage) (dateStr : String) : List String :=
  match page with
  | .error _ => []
  | .ok anchors => (anchors.filter (anchorKeep dateStr)).map hrefOf

/-- Restatement of the prober contract in the spec's own shape: take all the
anchor-tag hrefs of the page, keep exactly those ending in the compressed-file
suffix and containing the date marker; an unavailable page gives the empty
collection. -/
def specListAvailable (page : HtmlPage) (dateStr : String) : List String :=
  match page with
  | .error _ => []
  | .ok anchors =>
      (anchors.map hrefOf).filter
        (fun h => strEndsWith h ".grib2.bz2" && strContainsSub h dateStr)

/-! ### Storage keys — mirror.py, IconDatasetMirror._build_data_key / _build_meta_key -/

/-- The conditional suffix strip shared by _build_data_key and _build_meta_key:
when decompression is enabled and the filename ends in ".bz2", drop the last
four characters (Python filename[:-4]). -/
def stripBz2 (decompress : Bool) (filename : String) : String :=
  if decompress && strEndsWith filename ".bz2" then strDropRight filename 4 else filename

/-- IconDatasetMirror._build_data_key. -/
def buildDataKey (dsName : String) (decompress : Bool) (ymd run var filename : String) : String :=
  dsName ++ "/" ++ ymd ++ "/" ++ run ++ "/" ++ var ++ "/" ++ stripBz2 decompress filename

/-- IconDatasetMirror._build_meta_key. -/
def buildMetaKey (dsName : String) (decompress : Bool) (ymd run var filename : String) : String :=
  dsName ++ "/" ++ ymd ++ "/" ++ run ++ "/" ++ var ++ "/" ++ stripBz2 decompress filename ++ ".json"

/-- IconDatasetMirror._metadata_key: where the incremental state document lives. -/
def metadataKey (dsName : String) : String := dsName ++ "/metadata.json"

/-! ### Transfer engine — utils.py, download_to_storage

The streaming GET is modelled by NetResult: exn is an exception raised by
requests.get itself, and an ok response carries the HTTP status, the chunk
sequence produced by resp.iter_content, a flag midExn meaning that
iter_content raises after yielding those chunks (a network failure in the
middle of the body), and the response headers.  The storage backend is
modelled by a predicate wrOk on keys saying whether write_stream succeeds
for that key; a write that does not succeed raises.  SHA-256 is an external
primitive: hashlib digests are a pure function of the concatenation of all
bytes fed to update, so the embedding carries an arbitrary function
hash : List Nat → String in its place, and the hasher state is the list of
bytes fed so far.  The bz2 decompressor is likewise an external stateful
primitive, carried as a step function over an arbitrary state type. -/

/-- Model of requests.get(url, stream=True): status code, body chunks from
iter_content, whether iteration raises after those chunks, and headers. -/
structure HttpResp where
  status : Nat
  chunks : List Chunk
  midExn : Bool
  headers : List (String × String)
deriving DecidableEq

/-- Outcome of issuing the streaming GET: a response, or an exception from
requests.get itself. -/
inductive NetResult
  | ok (r : HttpResp)
  | exn
deriving DecidableEq

/-- Python d.get(k) on the (case-preserved) header dict. -/
def lookupHeader (hs : List (String × String)) (k : String) : Option String :=
  (hs.find? (fun e => e.1 == k)).map (fun e => e.2)

/-- The sidecar document built by utils._metadata_dict.  The sha256 field
holds hash applied to the bytes fed to the hasher. -/
structure Metadata where
  url : String
  sha256 : String
  timestamp_utc : String
  size_bytes : Nat
  http_last_modified : Option String
  http_etag : Option String
  http_headers : Option (List (String × String))
deriving DecidableEq

/-- utils._metadata_dict: the base fields are always present; the three
header-derived fields are only set when the header dict is nonempty, the
first two only when their header is present. -/
def metadataDict (u sha ts : String) (size : Nat) (hs : List (String × String)) : Metadata :=
  if hs.isEmpty then ⟨u, sha, ts, size, none, none, none⟩
  else
    ⟨u, sha, ts, size, lookupHeader hs "Last-Modified", lookupHeader hs "ETag",
      some (hs.filter (fun e => e.1 == "Content-Type" || e.1 == "Content-Length"))⟩

/-- utils._stream_raw: yield the nonempty chunks of the response body. -/
def streamRaw (chunks : List Chunk) : List Chunk :=
  chunks.filter (fun c => !c.isEmpty)

/-- utils._stream_decompressed_bz2: skip empty input chunks, feed the others
through the stateful decompressor, and yield each nonempty output. -/
def streamDecompBz2 {σ : Type} (dstep : σ → Chunk → σ × Chunk) : σ → List Chunk → List Chunk
  | _, [] => []
  | s, c :: cs =>
    if c.isEmpty then streamDecompBz2 dstep s cs
    else
      let r := dstep s c
      if r.2.isEmpty then streamDecompBz2 dstep r.1 cs
      else r.2 :: streamDecompBz2 dstep r.1 cs

/-- The meta_stream generator inside download_to_storage: for each chunk of
the (raw or decompressed) stream, feed it to the hasher, add its length to
the byte counter, and yield it.  Returns (bytes fed to the hasher, final
byte counter, chunks yielded to write_stream). -/
def metaStream : List Chunk → List Nat × Nat × List Chunk
  | [] => ([], 0, [])
  | c :: cs =>
    let r := metaStream cs
    (c ++ r.1, c.length + r.2.1, c :: r.2.2)

/-- Result of one call to download_to_storage: the returned bool, and for
each of the two keys the chunk sequence handed to write_stream together with
whether that write completed (none when write_stream was never invoked for
that key). -/
structure DlResult where
  succeeded : Bool
  dataWrite : Option (List Chunk × Bool)
  metaWrite : Option (Metadata × Bool)
deriving DecidableEq

/-- utils.download_to_storage.  Mirrors the source control flow: a GET
exception or a non-200 status returns False before any write; otherwise the
body is streamed through the optional decompression stage and the hashing
generator into storage.write_stream(data_key, ...); an exception raised
mid-body or by the data write is caught by the enclosing except and returns
False; on a successful data write, if meta_key is given, the sidecar built
from the hasher and counter is written, a failing sidecar write again
returning False.  Every exception path is caught inside the function (the
bare except Exception), so the model is a total function into DlResult and
never propagates an exception itself. -/
def download_to_storage {σ : Type} (hash : List Nat → String) (nowIso : String)
    (dstep : σ → Chunk → σ × Chunk) (dinit : σ)
    (net : NetResult) (url data_key : String) (meta_key : Option String)
    (decompress : Bool) (wrOk : String → Bool) : DlResult :=
  match net with
  | .exn => ⟨false, none, none⟩
  | .ok r =>
    if r.status ≠ 200 then ⟨false, none, none⟩
    else
      let raw := if decompress then streamDecompBz2 dstep dinit r.chunks else streamRaw r.chunks
      let m := metaStream raw
      if r.midExn then ⟨false, some (m.2.2, false), none⟩
      else if wrOk data_key then
        match meta_key with
        | none => ⟨true, some (m.2.2, true), none⟩
        | some mk =>
          if wrOk mk then
            ⟨true, some (m.2.2, true), some (metadataDict url (hash m.1) nowIso m.2.1 r.headers, true)⟩
          else
            ⟨false, some (m.2.2, true), some (metadataDict url (hash m.1) nowIso m.2.1 r.headers, false)⟩
      else ⟨false, some (m.2.2, false), none⟩

theorem metaStream_yield (l : List Chunk) : (metaStream l).2.2 = l := by
  induction l with
  | nil => rfl
  | cons c cs ih => simp [metaStream, ih]

theorem metaStream_hashed (l : List Chunk) : (metaStream l).1 = l.flatten := by
  induction l with
  | nil => rfl
  | cons c cs ih => simp [metaStream, ih]

theorem metaStream_size (l : List Chunk) : (metaStream l).2.1 = l.flatten.length := by
  induction l with
  | nil => rfl
  | cons c cs ih => simp [metaStream, ih]

/-! ### Datetimes — datetime.datetime with tzinfo=timezone.utc

Both operands of the only datetime comparison in mirror.py carry the UTC
timezone, so Python's comparison is the lexicographic order on the instant's
components. -/

/-- A timezone-aware UTC datetime, down to microseconds. -/
structure DateTime where
  year : Nat
  month : Nat
  day : Nat
  hour : Nat
  minute : Nat
  second : Nat
  micro : Nat
deriving DecidableEq

/-- Strict lexicographic order on equal-length Nat lists. -/
def natListLT : List Nat → List Nat → Bool
  | _, [] => false
  | [], _ :: _ => true
  | a :: as, b :: bs => decide (a < b) || (a == b && natListLT as bs)

/-- Component list of a datetime, most significant first. -/
def DateTime.fields (t : DateTime) : List Nat :=
  [t.year, t.month, t.day, t.hour, t.minute, t.second, t.micro]

/-- Python a < b on two UTC datetimes. -/
def dtLT (a b : DateTime) : Bool := natListLT a.fields b.fields

/-- The run_dt built in IconDatasetMirror.run: the reference date at the
run hour, UTC. -/
def runDT (date : DateTime) (h : Nat) : DateTime :=
  ⟨date.year, date.month, date.day, h, 0, 0, 0⟩

/-- Left pad a string with zeros to the given width. -/
def padZeros (w : Nat) (s : String) : String :=
  ⟨List.replicate (w - s.data.length) '0' ++ s.data⟩

/-- Python self.date.strftime("%Y%m%d"). -/
def fmtYmd (d : DateTime) : String :=
  padZeros 4 (toString d.year) ++ padZeros 2 (toString d.month) ++ padZeros 2 (toString d.day)

/-! ### Dataset descriptor and filename template — mirror.py

A Python format string parses into a sequence of literal pieces and
replacement fields; _build_filename uses the fields {grid}, {subgrid},
{level}, {date}, {run}, {step}, {var}, {var_upper}, the integer field
{step} optionally zero-padded by a format spec. -/

/-- One token of the parsed file_template format string. -/
inductive TmplTok
  | lit (s : String)
  | date
  | run
  | step (width : Nat)
  | var
  | varUpper
  | grid
  | subgrid
  | level
deriving DecidableEq

/-- Python str.upper restricted to ASCII letters (the variable identifiers of
the datasets are ASCII). -/
def asciiUpper (s : String) : String :=
  ⟨s.data.map (fun c => if 'a' ≤ c && c ≤ 'z' then Char.ofNat (c.toNat - 32) else c)⟩

/-- The dataset dict fields read by IconDatasetMirror (the "variables" field
is named vars here because variables is a Lean keyword). -/
structure Dataset where
  name : String
  base_url : String
  runs : List String
  vars : List String
  forecast_steps : List Nat
  file_template : List TmplTok
  grid : String
  subgrid : String
  level : String

/-- Substitution of one template token, as in template.format(...) inside
_build_filename. -/
def renderTok (grid subgrid level ymd run var : String) (stp : Nat) : TmplTok → String
  | .lit s => s
  | .date => ymd
  | .run => run
  | .step w => padZeros w (toString stp)
  | .var => var
  | .varUpper => asciiUpper var
  | .grid => grid
  | .subgrid => subgrid
  | .level => level

/-- IconDatasetMirror._build_filename. -/
def buildFilename (ds : Dataset) (ymd run var : String) (stp : Nat) : String :=
  String.join (ds.file_template.map (renderTok ds.grid ds.subgrid ds.level ymd run var stp))

/-! ### Incremental state — mirror.py metadata dict

The JSON document variable → filename → ISO timestamp is modelled as an
association list (Python dicts preserve insertion order; setdefault and item
assignment append at the end). -/

/-- The in-memory incremental state: variable → (filename → timestamp). -/
abbrev Meta := List (String × List (String × String))

/-- Python self.metadata.get(var). -/
def metaGetVar (m : Meta) (v : String) : Option (List (String × String)) :=
  (m.find? (fun e => e.1 == v)).map (fun e => e.2)

/-- IconDatasetMirror._already_downloaded: filename in self.metadata.get(var, {}). -/
def alreadyDownloaded (m : Meta) (v f : String) : Bool :=
  match metaGetVar m v with
  | none => false
  | some d => d.any (fun e => e.1 == f)

/-- Python self.metadata.setdefault(var, {}). -/
def setdefaultVar (m : Meta) (v : String) : Meta :=
  if (m.find? (fun e => e.1 == v)).isSome then m else m ++ [(v, [])]

/-- Python item assignment d[f] = ts on an inner dict. -/
def dictSet (d : List (String × String)) (f ts : String) : List (String × String) :=
  if d.any (fun e => e.1 == f) then d.map (fun e => if e.1 == f then (f, ts) else e)
  else d ++ [(f, ts)]

/-- IconDatasetMirror._mark_downloaded: setdefault then assign the timestamp. -/
def markDownloaded (m : Meta) (v f ts : String) : Meta :=
  (setdefaultVar m v).map (fun e => if e.1 == v then (e.1, dictSet e.2 f ts) else e)

/-- IconDatasetMirror._load_metadata: empty state when the metadata key does
not exist, the parsed document when json.load succeeds, and again the empty
state (after a logged warning) when the document exists but cannot be
parsed. -/
def load_metadata (existsKey : Bool) (parsed : Option Meta) : Meta :=
  if existsKey then
    match parsed with
    | some m => m
    | none => []
  else []

/-! ### Mirror orchestrator — mirror.py, IconDatasetMirror.run

The nested loop over runs x variables x steps is embedded as structural
recursions threading the (metadata, event log) state.  The environment
bundles the external world: the current instant, the index pages served per
(run, variable), the network result per URL, storage write success per key,
and the external hashing/decompression primitives.  Events record every
listing probe and every invocation of the transfer engine; a run identifier
that int() cannot parse, or an hour datetime() rejects, raises out of the
loop and aborts the pass (nothing of the per-file try/except catches it). -/

/-- The external world one mirror pass runs against. -/
structure MirrorEnv (σ : Type) where
  now : DateTime
  nowIso : String
  markTs : String
  hash : List Nat → String
  dstep : σ → Chunk → σ × Chunk
  dinit : σ
  decompress : Bool
  pages : String → String → HtmlPage
  net : String → NetResult
  wrOk : String → Bool

/-- Observable actions of one mirror pass. -/
inductive Ev
  | probe (run var : String) (files : List String)
  | transfer (run var filename url dataKey metaKey : String) (success : Bool)
  | save (ok : Bool)
deriving DecidableEq

/-- The body of the innermost loop of IconDatasetMirror.run for one forecast
step: skip when the rendered filename is already recorded in metadata, skip
when it is absent from the probed listing, otherwise invoke
download_to_storage and on success mark the (variable, filename) pair done. -/
def processStep {σ : Type} (env : MirrorEnv σ) (ds : Dataset) (ymd run var : String)
    (avail : List String) (st : Meta × List Ev) (stp : Nat) : Meta × List Ev :=
  let filename := buildFilename ds ymd run var stp
  if alreadyDownloaded st.1 var filename then st
  else if avail.contains filename then
    let url := ds.base_url ++ "/" ++ run ++ "/" ++ var ++ "/" ++ filename
    let dk := buildDataKey ds.name env.decompress ymd run var filename
    let mk := buildMetaKey ds.name env.decompress ymd run var filename
    let r := download_to_storage env.hash env.nowIso env.dstep env.dinit
      (env.net url) url dk (some mk) env.decompress env.wrOk
    let m2 := if r.succeeded then markDownloaded st.1 var filename env.markTs else st.1
    (m2, st.2 ++ [.transfer run var filename url dk mk r.succeeded])
  else st

/-- The steps loop of IconDatasetMirror.run. -/
def processSteps {σ : Type} (env : MirrorEnv σ) (ds : Dataset) (ymd run var : String)
    (avail : List String) : Meta × List Ev → List Nat → Meta × List Ev
  | st, [] => st
  | st, s :: rest =>
      processSteps env ds ymd run var avail (processStep env ds ymd run var avail st s) rest

/-- The body of the variables loop of IconDatasetMirror.run for one variable:
setdefault the variable's entry in metadata, probe the HTML listing once, and
when the listing is empty or failed skip all steps for this pair. -/
def processVar {σ : Type} (env : MirrorEnv σ) (ds : Dataset) (ymd run : String)
    (st : Meta × List Ev) (var : String) : Meta × List Ev :=
  let m1 := setdefaultVar st.1 var
  let avail := getAvailableFilesFromHtml (env.pages run var) ymd
  let evs := st.2 ++ [.probe run var avail]
  if avail.isEmpty then (m1, evs)
  else processSteps env ds ymd run var avail (m1, evs) ds.forecast_steps

/-- The variables loop of IconDatasetMirror.run. -/
def processVars {σ : Type} (env : MirrorEnv σ) (ds : Dataset) (ymd run : String) :
    Meta × List Ev → List String → Meta × List Ev
  | st, [] => st
  | st, v :: rest => processVars env ds ymd run (processVar env ds ymd run st v) rest

/-- The runs loop of IconDatasetMirror.run.  int(run) failing to parse, or
datetime() rejecting the parsed hour (hour ≥ 24), raises out of run; the
returned flag is false in that case and the pass is aborted with the events
performed so far.  A run whose datetime lies strictly in the future is
skipped entirely. -/
def processRuns {σ : Type} (env : MirrorEnv σ) (ds : Dataset) (ymd : String) (date : DateTime) :
    Meta × List Ev → List String → Bool × Meta × List Ev
  | st, [] => (true, st.1, st.2)
  | st, r :: rest =>
    match pyInt r with
    | none => (false, st.1, st.2)
    | some h =>
      if 24 ≤ h then (false, st.1, st.2)
      else if dtLT env.now (runDT date h) then processRuns env ds ymd date st rest
      else processRuns env ds ymd date (processVars env ds ymd r st ds.vars) rest

/-- Terminal state of one dataset pass. -/
inductive Outcome
  | completed
  | aborted
deriving DecidableEq

/-- Result of one dataset pass: its terminal state, the final in-memory
incremental state, and the observable events. -/
structure MirrorResult where
  outcome : Outcome
  metadata : Meta
  events : List Ev

/-- IconDatasetMirror.run for one dataset, reference date and loaded
incremental state: iterate the runs and, when no exception escaped the
loops, persist the state document once (_save_metadata catches its own
write failure, so a failing save still completes the pass). -/
def IconDatasetMirror_run {σ : Type} (env : MirrorEnv σ) (ds : Dataset) (date : DateTime)
    (meta0 : Meta) : MirrorResult :=
  let r := processRuns env ds (fmtYmd date) date (meta0, []) ds.runs
  if r.1 then ⟨.completed, r.2.1, r.2.2 ++ [.save (env.wrOk (metadataKey ds.name))]⟩
  else ⟨.aborted, r.2.1, r.2.2⟩

/-! ### storage.py, _IterableReader and S3Storage.write_stream

The reader state is the not-yet-consumed tail of the chunk iterator plus the
internal buffer.  readinto(b) refills the empty buffer from the iterator
(returning 0 at StopIteration), then copies n = min(len(b), len(buffer))
bytes out; boto3's upload_fileobj reads through the reader until a read
reports end of file, i.e. until readinto returns 0. -/

/-- State of an _IterableReader: remaining iterator chunks and buffer. -/
structure IterReader where
  rest : List Chunk
  buffer : Chunk
deriving DecidableEq

/-- _IterableReader.readinto for a destination of capacity cap: the returned
count, the bytes copied out, and the successor state. -/
def readinto (cap : Nat) (r : IterReader) : Nat × Chunk × IterReader :=
  if r.buffer.isEmpty then
    match r.rest with
    | [] => (0, [], r)
    | c :: cs =>
        (min cap c.length, c.take (min cap c.length), ⟨cs, c.drop (min cap c.length)⟩)
  else
    (min cap r.buffer.length, r.buffer.take (min cap r.buffer.length),
      ⟨r.rest, r.buffer.drop (min cap r.buffer.length)⟩)

/-- Termination measure for the read loop: total pending content plus the
number of pending chunks. -/
def irMeasure (r : IterReader) : Nat :=
  r.buffer.length + r.rest.length + (r.rest.map List.length).sum

theorem readinto_measure (cap : Nat) (r : IterReader) (h : (readinto cap r).1 ≠ 0) :
    irMeasure (readinto cap r).2.2 < irMeasure r := by
  obtain ⟨rest, buf⟩ := r
  cases buf with
  | cons a as =>
    simp [readinto, irMeasure] at h ⊢
    omega
  | nil =>
    cases rest with
    | nil => simp [readinto] at h
    | cons c cs =>
      simp [readinto, irMeasure] at h ⊢
      omega

/-- Reading the wrapper until readinto reports end of file, as
boto3.upload_fileobj does inside S3Storage.write_stream: the byte sequence
obtained before the first zero return. -/
def readUntilEof (cap : Nat) (r : IterReader) : List Nat :=
  if h0 : (readinto cap r).1 = 0 then []
  else (readinto cap r).2.1 ++ readUntilEof cap (readinto cap r).2.2
termination_by irMeasure r
decreasing_by exact readinto_measure cap r h0

/-- S3Storage.write_stream: wrap the chunk iterable in an _IterableReader
(empty initial buffer) and upload whatever reading it until end of file
yields, for a reader capacity cap. -/
def s3UploadedBytes (cap : Nat) (chunks : List Chunk) : List Nat :=
  readUntilEof cap ⟨chunks, []⟩

theorem readUntilEof_step (cap : Nat) (r : IterReader) (h : (readinto cap r).1 ≠ 0) :
    readUntilEof cap r = (readinto cap r).2.1 ++ readUntilEof cap (readinto cap r).2.2 := by
  rw [readUntilEof, dif_neg h]

theorem readUntilEof_stop (cap : Nat) (r : IterReader) (h : (readinto cap r).1 = 0) :
    readUntilEof cap r = [] := by
  rw [readUntilEof, dif_pos h]

theorem readUntilEof_characterization (cap : Nat) (hcap : 1 ≤ cap) :
    ∀ (n : Nat) (r : IterReader), irMeasure r ≤ n →
      readUntilEof cap r
        = r.buffer ++ (r.rest.takeWhile (fun c => !c.isEmpty)).flatten := by
  intro n
  induction n with
  | zero =>
    intro r hle
    obtain ⟨rest, buf⟩ := r
    simp only [irMeasure] at hle
    have hb : buf = [] := List.length_eq_zero.mp (by omega)
    have hr : rest = [] := List.length_eq_zero.mp (by omega)
    subst hb; subst hr
    rw [readUntilEof_stop _ _ (by simp [readinto])]
    simp
  | succ n ih =>
    intro r hle
    obtain ⟨rest, buf⟩ := r
    cases buf with
    | cons a as =>
      have hri : readinto cap ⟨rest, a :: as⟩
          = (min cap (a :: as).length, (a :: as).take (min cap (a :: as).length),
             ⟨rest, (a :: as).drop (min cap (a :: as).length)⟩) := by
        simp [readinto]
      have hne : (readinto cap ⟨rest, a :: as⟩).1 ≠ 0 := by
        rw [hri]; simp; omega
      rw [readUntilEof_step _ _ hne, hri]
      have hnext : irMeasure ⟨rest, (a :: as).drop (min cap (a :: as).length)⟩ ≤ n := by
        simp only [irMeasure, List.length_drop, List.length_cons] at hle ⊢
        omega
      rw [ih _ hnext]
      rw [← List.append_assoc, List.take_append_drop]
    | nil =>
      cases rest with
      | nil =>
        rw [readUntilEof_stop _ _ (by simp [readinto])]
        simp
      | cons c cs =>
        cases c with
        | nil =>
          rw [readUntilEof_stop _ _ (by simp [readinto])]
          simp [List.takeWhile_cons]
        | cons b bs =>
          have hri : readinto cap ⟨(b :: bs) :: cs, ([] : Chunk)⟩
              = (min cap (b :: bs).length, (b :: bs).take (min cap (b :: bs).length),
                 ⟨cs, (b :: bs).drop (min cap (b :: bs).length)⟩) := by
            simp [readinto]
          have hne : (readinto cap ⟨(b :: bs) :: cs, ([] : Chunk)⟩).1 ≠ 0 := by
            rw [hri]; simp; omega
          rw [readUntilEof_step _ _ hne, hri]
          have hnext : irMeasure ⟨cs, (b :: bs).drop (min cap (b :: bs).length)⟩ ≤ n := by
            simp only [irMeasure, List.length_drop, List.length_cons, List.length_nil,
              List.map_cons, List.sum_cons] at hle ⊢
            omega
          rw [ih _ hnext]
          simp only [List.takeWhile_cons, List.isEmpty_cons, Bool.not_false, if_true,
            List.flatten_cons, List.nil_append]
          rw [← List.append_assoc, List.take_append_drop]

/-! ### Monotonicity of the incremental state

A mirror pass only ever adds (variable, filename) pairs to the metadata
dict: setdefault and _mark_downloaded never remove a recorded pair.  This is
the invariant behind the skip guarantees. -/

theorem find?_map_keys (m : Meta) (g : String × List (String × String) → String × List (String × String))
    (hg : ∀ e, (g e).1 = e.1) (v : String) :
    (m.map g).find? (fun e => e.1 == v) = (m.find? (fun e => e.1 == v)).map g := by
  induction m with
  | nil => rfl
  | cons e es ih =>
    simp only [List.map_cons, List.find?_cons, hg e]
    cases h : (e.1 == v) with
    | true => simp
    | false => simpa using ih

theorem any_key_map_set (d : List (String × String)) (f ts f2 : String) :
    ((d.map (fun e => if e.1 == f then (f, ts) else e)).any (fun e => e.1 == f2))
      = d.any (fun e => e.1 == f2) := by
  induction d with
  | nil => rfl
  | cons e es ih =>
    simp only [List.map_cons, List.any_cons, ih]
    by_cases h : (e.1 == f) = true
    · have he : e.1 = f := by simpa using h
      rw [if_pos h]
      simp [he]
    · rw [if_neg h]

theorem dictSet_keeps (d : List (String × String)) (f ts f2 : String)
    (h : d.any (fun e => e.1 == f2) = true) :
    (dictSet d f ts).any (fun e => e.1 == f2) = true := by
  unfold dictSet
  by_cases hf : d.any (fun e => e.1 == f) = true
  · rw [if_pos hf, any_key_map_set]; exact h
  · rw [if_neg hf, List.any_append]; simp [h]

theorem already_setdefault (m : Meta) (x v f : String) :
    alreadyDownloaded (setdefaultVar m x) v f = alreadyDownloaded m v f := by
  unfold setdefaultVar
  by_cases hx : (m.find? (fun e => e.1 == x)).isSome
  · rw [if_pos hx]
  · rw [if_neg hx]
    unfold alreadyDownloaded metaGetVar
    rw [List.find?_append]
    cases hv : m.find? (fun e => e.1 == v) with
    | some e => simp
    | none =>
      simp only [Option.none_or]
      by_cases hxv : (x == v) = true
      · simp [List.find?_cons, hxv]
      · simp [List.find?_cons, hxv]

theorem already_mark_mono (m : Meta) (x g ts v f : String)
    (h : alreadyDownloaded m v f = true) :
    alreadyDownloaded (markDownloaded m x g ts) v f = true := by
  unfold markDownloaded
  have h2 : alreadyDownloaded (setdefaultVar m x) v f = true := by
    rw [already_setdefault]; exact h
  revert h2
  generalize setdefaultVar m x = m2
  intro h2
  unfold alreadyDownloaded metaGetVar at h2 ⊢
  rw [find?_map_keys _ _ (fun e => by by_cases he : (e.1 == x) = true <;> simp [he]) v]
  cases hv : m2.find? (fun e => e.1 == v) with
  | none => rw [hv] at h2; simp at h2
  | some e =>
    rw [hv] at h2
    simp only [Option.map_some'] at h2 ⊢
    by_cases hex : (e.1 == x) = true
    · simp only [if_pos hex]
      exact dictSet_keeps _ _ _ _ h2
    · simp only [if_neg hex]
      exact h2

/-- The state only grows: every pair recorded in m1 is recorded in m2. -/
def MetaLE (m1 m2 : Meta) : Prop :=
  ∀ v f, alreadyDownloaded m1 v f = true → alreadyDownloaded m2 v f = true

/-! ### Soundness of the mirror pass event log

Every probe or transfer event of a pass is tagged with a run identifier that
parsed as a valid, non-future hour, and every transfer event names a file
that was present in the probed listing of its (run, variable) partition and
was not recorded in the loaded incremental state. -/

/-- The run identifier passed int(), was a valid hour for datetime(), and was
not strictly in the future. -/
def runOK {σ : Type} (env : MirrorEnv σ) (date : DateTime) (r : String) : Prop :=
  ∃ h, pyInt r = some h ∧ h < 24 ∧ dtLT env.now (runDT date h) = false

/-- Soundness property of a single event of a pass started from state m0. -/
def evGood {σ : Type} (env : MirrorEnv σ) (ymd : String) (date : DateTime) (m0 : Meta) : Ev → Prop
  | .probe r _ _ => runOK env date r
  | .transfer r v f _ _ _ _ =>
      runOK env date r
      ∧ f ∈ getAvailableFilesFromHtml (env.pages r v) ymd
      ∧ alreadyDownloaded m0 v f = false
  | .save _ => True

/-- Invariant threaded through the loops: the metadata grew from m0 and all
events logged so far are sound. -/
def stGood {σ : Type} (env : MirrorEnv σ) (ymd : String) (date : DateTime) (m0 : Meta)
    (st : Meta × List Ev) : Prop :=
  MetaLE m0 st.1 ∧ ∀ ev ∈ st.2, evGood env ymd date m0 ev

theorem processStep_sound {σ : Type} (env : MirrorEnv σ) (ds : Dataset)
    (ymd run var : String) (avail : List String) (st : Meta × List Ev) (stp : Nat)
    (m0 : Meta) (date : DateTime)
    (hrun : runOK env date run)
    (havail : avail = getAvailableFilesFromHtml (env.pages run var) ymd)
    (hst : stGood env ymd date m0 st) :
    stGood env ymd date m0 (processStep env ds ymd run var avail st stp) := by
  obtain ⟨hmono, hevs⟩ := hst
  simp only [processStep]
  split
  · exact ⟨hmono, hevs⟩
  · next hd =>
    split
    · next hc =>
      constructor
      · split
        · intro v' f' hv'
          exact already_mark_mono _ _ _ _ _ _ (hmono v' f' hv')
        · exact hmono
      · intro ev hev
        rw [List.mem_append] at hev
        rcases hev with h1 | h2
        · exact hevs ev h1
        · rw [List.mem_singleton] at h2
          subst h2
          refine ⟨hrun, ?_, ?_⟩
          · rw [← havail]
            exact List.mem_of_elem_eq_true hc
          · by_contra hcon
            exact hd (hmono var (buildFilename ds ymd run var stp)
              (Bool.not_eq_false _ ▸ hcon))
    · exact ⟨hmono, hevs⟩

theorem processSteps_sound {σ : Type} (env : MirrorEnv σ) (ds : Dataset)
    (ymd run var : String) (avail : List String) (m0 : Meta) (date : DateTime)
    (hrun : runOK env date run)
    (havail : avail = getAvailableFilesFromHtml (env.pages run var) ymd) :
    ∀ (steps : List Nat) (st : Meta × List Ev), stGood env ymd date m0 st →
      stGood env ymd date m0 (processSteps env ds ymd run var avail st steps) := by
  intro steps
  induction steps with
  | nil => exact fun st h => h
  | cons s rest ih =>
    intro st hst
    exact ih _ (processStep_sound env ds ymd run var avail st s m0 date hrun havail hst)

theorem processVar_sound {σ : Type} (env : MirrorEnv σ) (ds : Dataset)
    (ymd run : String) (st : Meta × List Ev) (var : String) (m0 : Meta) (date : DateTime)
    (hrun : runOK env date run)
    (hst : stGood env ymd date m0 st) :
    stGood env ymd date m0 (processVar env ds ymd run st var) := by
  obtain ⟨hmono, hevs⟩ := hst
  have hmono1 : MetaLE m0 (setdefaultVar st.1 var) := by
    intro v' f' hv'
    rw [already_setdefault]
    exact hmono v' f' hv'
  have hevs1 : ∀ ev ∈ st.2 ++ [Ev.probe run var
      (getAvailableFilesFromHtml (env.pages run var) ymd)], evGood env ymd date m0 ev := by
    intro ev hev
    rw [List.mem_append] at hev
    rcases hev with h1 | h2
    · exact hevs ev h1
    · rw [List.mem_singleton] at h2
      subst h2
      exact hrun
  simp only [processVar]
  split
  · exact ⟨hmono1, hevs1⟩
  · exact processSteps_sound env ds ymd run var _ m0 date hrun rfl
      ds.forecast_steps _ ⟨hmono1, hevs1⟩

theorem processVars_sound {σ : Type} (env : MirrorEnv σ) (ds : Dataset)
    (ymd run : String) (m0 : Meta) (date : DateTime)
    (hrun : runOK env date run) :
    ∀ (vs : List String) (st : Meta × List Ev), stGood env ymd date m0 st →
      stGood env ymd date m0 (processVars env ds ymd run st vs) := by
  intro vs
  induction vs with
  | nil => exact fun st h => h
  | cons v rest ih =>
    intro st hst
    exact ih _ (processVar_sound env ds ymd run st v m0 date hrun hst)

theorem processRuns_sound {σ : Type} (env : MirrorEnv σ) (ds : Dataset)
    (ymd : String) (date : DateTime) (m0 : Meta) :
    ∀ (rs : List String) (st : Meta × List Ev), stGood env ymd date m0 st →
      stGood env ymd date m0
        ((processRuns env ds ymd date st rs).2.1, (processRuns env ds ymd date st rs).2.2) := by
  intro rs
  induction rs with
  | nil => exact fun st h => h
  | cons r rest ih =>
    intro st hst
    simp only [processRuns]
    cases hp : pyInt r with
    | none => exact hst
    | some h =>
      simp only []
      split
      · exact hst
      · next hval =>
        split
        · exact ih st hst
        · next hfut =>
          refine ih _ (processVars_sound env ds ymd r m0 date ?_ ds.vars st hst)
          exact ⟨h, hp, by omega, Bool.not_eq_true _ ▸ hfut⟩

theorem mirrorRun_sound {σ : Type} (env : MirrorEnv σ) (ds : Dataset) (date : DateTime)
    (m0 : Meta) :
    ∀ ev ∈ (IconDatasetMirror_run env ds date m0).events, evGood env (fmtYmd date) date m0 ev := by
  have h := processRuns_sound env ds (fmtYmd date) date m0 ds.runs (m0, [])
    ⟨fun _ _ hvf => hvf, by intro ev hev; simp at hev⟩
  simp only [IconDatasetMirror_run]
  split
  · intro ev hev
    rw [List.mem_append] at hev
    rcases hev with h1 | h2
    · exact h.2 ev h1
    · rw [List.mem_singleton] at h2
      subst h2
      trivial
  · exact h.2

/-- When every configured run identifier parses as a valid hour, the runs
loop finishes without raising, whatever the downloads do. -/
theorem processRuns_completes {σ : Type} (env : MirrorEnv σ) (ds : Dataset)
    (ymd : String) (date : DateTime) :
    ∀ (rs : List String) (st : Meta × List Ev),
      (∀ r ∈ rs, ∃ h, pyInt r = some h ∧ h < 24) →
      (processRuns env ds ymd date st rs).1 = true := by
  intro rs
  induction rs with
  | nil => intro st _; rfl
  | cons r rest ih =>
    intro st hall
    obtain ⟨h, hp, hlt⟩ := hall r (List.mem_cons_self r rest)
    simp only [processRuns, hp]
    rw [if_neg (by omega)]
    split
    · exact ih st (fun r2 hr2 => hall r2 (List.mem_cons_of_mem r hr2))
    · exact ih _ (fun r2 hr2 => hall r2 (List.mem_cons_of_mem r hr2))

theorem metadataDict_sha (u sha ts : String) (size : Nat) (hs : List (String × String)) :
    (metadataDict u sha ts size hs).sha256 = sha := by
  unfold metadataDict; split <;> rfl

theorem metadataDict_size (u sha ts : String) (size : Nat) (hs : List (String × String)) :
    (metadataDict u sha ts size hs).size_bytes = size := by
  unfold metadataDict; split <;> rfl

/-- C1: for every successful call to download_to_storage with a meta_key
supplied, the sidecar's recorded sha256 digest is the SHA-256 (the abstract
hash) of exactly the byte sequence handed to storage.write_stream under
data_key — the possibly decompressed stream — and the recorded size_bytes is
the total length of that sequence. -/
theorem c1_sidecar_digest_of_stored_bytes {σ : Type} (hash : List Nat → String)
    (nowIso : String) (dstep : σ → Chunk → σ × Chunk) (dinit : σ) (net : NetResult)
    (url data_key mk : String) (decompress : Bool) (wrOk : String → Bool)
    (hsucc : (download_to_storage hash nowIso dstep dinit net url data_key (some mk)
      decompress wrOk).succeeded = true) :
    ∃ out md,
      (download_to_storage hash nowIso dstep dinit net url data_key (some mk)
        decompress wrOk).dataWrite = some (out, true)
      ∧ (download_to_storage hash nowIso dstep dinit net url data_key (some mk)
        decompress wrOk).metaWrite = some (md, true)
      ∧ md.sha256 = hash out.flatten
      ∧ md.size_bytes = out.flatten.length := by
  cases net with
  | exn => simp [download_to_storage] at hsucc
  | ok r =>
    simp only [download_to_storage] at hsucc ⊢
    by_cases h200 : r.status ≠ 200
    · rw [if_pos h200] at hsucc; simp at hsucc
    · rw [if_neg h200] at hsucc ⊢
      by_cases hmid : r.midExn = true
      · rw [if_pos hmid] at hsucc; simp at hsucc
      · rw [if_neg hmid] at hsucc ⊢
        by_cases hwd : wrOk data_key = true
        · rw [if_pos hwd] at hsucc ⊢
          by_cases hwm : wrOk mk = true
          · rw [if_pos hwm] at hsucc ⊢
            refine ⟨_, _, rfl, rfl, ?_, ?_⟩
            · rw [metadataDict_sha, metaStream_hashed, metaStream_yield]
            · rw [metadataDict_size, metaStream_size, metaStream_yield]
          · rw [if_neg hwm] at hsucc; simp at hsucc
        · rw [if_neg hwd] at hsucc; simp at hsucc

/-- C1 witness: a concrete successful transfer with a sidecar. -/
theorem c1_witness :
    (download_to_storage (fun _ => "digest") "now" (fun (s : Unit) c => (s, c)) ()
      (NetResult.ok ⟨200, [[1, 2], [3]], false, []⟩) "http://u" "k" (some "k.json")
      false (fun _ => true)).succeeded = true
    ∧ ∃ out md,
      (download_to_storage (fun _ => "digest") "now" (fun (s : Unit) c => (s, c)) ()
        (NetResult.ok ⟨200, [[1, 2], [3]], false, []⟩) "http://u" "k" (some "k.json")
        false (fun _ => true)).dataWrite = some (out, true)
      ∧ (download_to_storage (fun _ => "digest") "now" (fun (s : Unit) c => (s, c)) ()
        (NetResult.ok ⟨200, [[1, 2], [3]], false, []⟩) "http://u" "k" (some "k.json")
        false (fun _ => true)).metaWrite = some (md, true)
      ∧ md.sha256 = (fun (_ : List Nat) => "digest") out.flatten
      ∧ md.size_bytes = out.flatten.length :=
  ⟨rfl, c1_sidecar_digest_of_stored_bytes (fun _ => "digest") "now"
    (fun (s : Unit) c => (s, c)) () (NetResult.ok ⟨200, [[1, 2], [3]], false, []⟩)
    "http://u" "k" "k.json" false (fun _ => true) rfl⟩

/-- C4: a non-200 status (404 included) makes download_to_storage return
False with no exception escaping (the model is total) and with write_stream
never invoked for either key. -/
theorem c4_non200_returns_false_writes_nothing {σ : Type} (hash : List Nat → String)
    (nowIso : String) (dstep : σ → Chunk → σ × Chunk) (dinit : σ) (r : HttpResp)
    (url data_key : String) (meta_key : Option String) (decompress : Bool)
    (wrOk : String → Bool) (hst : r.status ≠ 200) :
    download_to_storage hash nowIso dstep dinit (NetResult.ok r) url data_key meta_key
      decompress wrOk = ⟨false, none, none⟩ := by
  simp only [download_to_storage]
  rw [if_pos hst]

/-- C4 witness: a 404 response. -/
theorem c4_witness :
    ((404 : Nat) ≠ 200)
    ∧ download_to_storage (fun _ => "") "now" (fun (s : Unit) c => (s, c)) ()
        (NetResult.ok ⟨404, [[1]], false, []⟩) "http://u" "k" (some "k.json") false
        (fun _ => true) = ⟨false, none, none⟩ :=
  ⟨by decide, c4_non200_returns_false_writes_nothing (fun _ => "") "now"
    (fun (s : Unit) c => (s, c)) () ⟨404, [[1]], false, []⟩ "http://u" "k"
    (some "k.json") false (fun _ => true) (by decide)⟩

/-- C7: the listing prober returns exactly the anchor hrefs of the fetched
page that end in ".grib2.bz2" and contain the date marker, and the empty
collection on any network or parse failure. -/
theorem c7_prober_is_filtered_hrefs (page : HtmlPage) (dateStr : String) :
    getAvailableFilesFromHtml page dateStr = specListAvailable page dateStr := by
  cases page with
  | error e => rfl
  | ok anchors =>
    simp only [getAvailableFilesFromHtml, specListAvailable]
    induction anchors with
    | nil => rfl
    | cons a as ih =>
      simp only [List.filter_cons, List.map_cons]
      by_cases h : anchorKeep dateStr a = true
      · rw [if_pos h, if_pos (by simpa [anchorKeep] using h)]
        simp only [List.map_cons]
        rw [ih]
      · rw [if_neg h, if_neg (by simpa [anchorKeep] using h)]
        exact ih

/-- C8: the data key is dataset/date/run/variable/filename with the .bz2
suffix stripped exactly when decompression is on and the filename carries
it, and the sidecar key is the data key with ".json" appended, so the
compression suffix is dropped from both. -/
theorem c8_storage_key_shape (dsName : String) (dec : Bool) (ymd run var filename : String) :
    buildDataKey dsName dec ymd run var filename
      = dsName ++ "/" ++ ymd ++ "/" ++ run ++ "/" ++ var ++ "/"
          ++ (if dec && strEndsWith filename ".bz2" then strDropRight filename 4 else filename)
    ∧ buildMetaKey dsName dec ymd run var filename
      = buildDataKey dsName dec ymd run var filename ++ ".json" :=
  ⟨rfl, rfl⟩

/-! ### Concrete instantiations used by the witness theorems -/

/-- A concrete dataset descriptor for witnesses. -/
def wDs : Dataset :=
  ⟨"icon-d2", "https://opendata.example/weather", ["00"], ["t_2m"], [0],
    [TmplTok.lit "icon_", TmplTok.date, TmplTok.lit "_", TmplTok.run, TmplTok.lit "_",
      TmplTok.step 3, TmplTok.lit "_", TmplTok.var, TmplTok.lit ".grib2.bz2"],
    "", "", ""⟩

/-- A concrete reference date for witnesses. -/
def wDate : DateTime := ⟨2026, 1, 1, 0, 0, 0, 0⟩

/-- A later reference date, whose runs lie in wEnv's future. -/
def wDateLater : DateTime := ⟨2026, 1, 5, 0, 0, 0, 0⟩

/-- A concrete environment for witnesses: current instant 2026-01-02T03:00Z,
empty index pages, a 404 network, always-succeeding storage writes. -/
def wEnv : MirrorEnv Unit :=
  ⟨⟨2026, 1, 2, 3, 0, 0, 0⟩, "2026-01-02T03:00:00+00:00", "2026-01-02T03:00:00+00:00",
    fun _ => "", fun s c => (s, c), (), false,
    fun _ _ => Except.ok [], fun _ => NetResult.ok ⟨404, [], false, []⟩, fun _ => true⟩

/-! ### Claims about the mirror pass -/

/-- C2: a (variable, filename) pair present in the loaded incremental state
is never given to the transfer engine during the pass, whatever the
environment does. -/
theorem c2_recorded_pair_never_transferred {σ : Type} (env : MirrorEnv σ) (ds : Dataset)
    (date : DateTime) (m0 : Meta) (v f : String)
    (hdone : alreadyDownloaded m0 v f = true) :
    ∀ run url dk mk succ,
      Ev.transfer run v f url dk mk succ ∉ (IconDatasetMirror_run env ds date m0).events := by
  intro run url dk mk succ hmem
  have hg := mirrorRun_sound env ds date m0 _ hmem
  simp only [evGood] at hg
  rw [hdone] at hg
  exact absurd hg.2.2 (by simp)

/-- C2 witness. -/
theorem c2_witness :
    alreadyDownloaded [("t_2m", [("fileA", "ts")])] "t_2m" "fileA" = true
    ∧ ∀ run url dk mk succ,
        Ev.transfer run "t_2m" "fileA" url dk mk succ
          ∉ (IconDatasetMirror_run wEnv wDs wDate [("t_2m", [("fileA", "ts")])]).events :=
  ⟨by decide, c2_recorded_pair_never_transferred wEnv wDs wDate
    [("t_2m", [("fileA", "ts")])] "t_2m" "fileA" (by decide)⟩

/-- C3: a filename absent from the listing probed for its (run, variable)
partition is never given to the transfer engine, regardless of the loaded
incremental state. -/
theorem c3_absent_file_never_transferred {σ : Type} (env : MirrorEnv σ) (ds : Dataset)
    (date : DateTime) (m0 : Meta) (r v f : String)
    (habs : f ∉ getAvailableFilesFromHtml (env.pages r v) (fmtYmd date)) :
    ∀ url dk mk succ,
      Ev.transfer r v f url dk mk succ ∉ (IconDatasetMirror_run env ds date m0).events := by
  intro url dk mk succ hmem
  have hg := mirrorRun_sound env ds date m0 _ hmem
  simp only [evGood] at hg
  exact habs hg.2.1

/-- C3 witness. -/
theorem c3_witness :
    "icon_x.grib2.bz2" ∉ getAvailableFilesFromHtml (wEnv.pages "00" "t_2m") (fmtYmd wDate)
    ∧ ∀ url dk mk succ,
        Ev.transfer "00" "t_2m" "icon_x.grib2.bz2" url dk mk succ
          ∉ (IconDatasetMirror_run wEnv wDs wDate []).events :=
  ⟨by decide, c3_absent_file_never_transferred wEnv wDs wDate [] "00" "t_2m"
    "icon_x.grib2.bz2" (by decide)⟩

/-- C5: an exception inside the streaming transfer (a GET exception, a
mid-body network failure, or a failing storage write) surfaces to the
caller as succeeded = False — download_to_storage never raises — and the
mirror pass still runs to completion for every environment, so one failing
file aborts nothing. -/
theorem c5_transfer_failure_contained {σ : Type} (env : MirrorEnv σ) (ds : Dataset)
    (date : DateTime) (m0 : Meta) (url data_key mk : String) (r : HttpResp)
    (hruns : ∀ rr ∈ ds.runs, ∃ h, pyInt rr = some h ∧ h < 24)
    (hfail : r.midExn = true ∨ env.wrOk data_key = false) :
    (download_to_storage env.hash env.nowIso env.dstep env.dinit NetResult.exn url data_key
        (some mk) env.decompress env.wrOk).succeeded = false
    ∧ (download_to_storage env.hash env.nowIso env.dstep env.dinit (NetResult.ok r) url
        data_key (some mk) env.decompress env.wrOk).succeeded = false
    ∧ (IconDatasetMirror_run env ds date m0).outcome = Outcome.completed := by
  refine ⟨rfl, ?_, ?_⟩
  · simp only [download_to_storage]
    by_cases h200 : r.status ≠ 200
    · rw [if_pos h200]
    · rw [if_neg h200]
      by_cases hmid : r.midExn = true
      · rw [if_pos hmid]
      · rw [if_neg hmid]
        rcases hfail with hm | hw
        · exact absurd hm hmid
        · rw [if_neg (by simp [hw])]
  · simp only [IconDatasetMirror_run]
    rw [if_pos (processRuns_completes env ds (fmtYmd date) date ds.runs (m0, []) hruns)]

/-- C5 witness. -/
theorem c5_witness :
    (∀ rr ∈ wDs.runs, ∃ h, pyInt rr = some h ∧ h < 24)
    ∧ ((⟨200, [[1]], true, []⟩ : HttpResp).midExn = true ∨ wEnv.wrOk "k" = false)
    ∧ ((download_to_storage wEnv.hash wEnv.nowIso wEnv.dstep wEnv.dinit NetResult.exn
          "http://u" "k" (some "k.json") wEnv.decompress wEnv.wrOk).succeeded = false
      ∧ (download_to_storage wEnv.hash wEnv.nowIso wEnv.dstep wEnv.dinit
          (NetResult.ok ⟨200, [[1]], true, []⟩) "http://u" "k" (some "k.json")
          wEnv.decompress wEnv.wrOk).succeeded = false
      ∧ (IconDatasetMirror_run wEnv wDs wDate []).outcome = Outcome.completed) := by
  have hr : ∀ rr ∈ wDs.runs, ∃ h, pyInt rr = some h ∧ h < 24 := by
    intro rr hrr
    rw [show wDs.runs = ["00"] from rfl, List.mem_singleton] at hrr
    subst hrr
    exact ⟨0, by decide, by decide⟩
  exact ⟨hr, Or.inl rfl,
    c5_transfer_failure_contained wEnv wDs wDate [] "http://u" "k" "k.json"
      ⟨200, [[1]], true, []⟩ hr (Or.inl rfl)⟩

/-- C6: a configured run whose timestamp (reference date at the run hour,
UTC) lies strictly in the future is skipped whole — no probe and no
transfer event carries that run identifier. -/
theorem c6_future_run_fully_skipped {σ : Type} (env : MirrorEnv σ) (ds : Dataset)
    (date : DateTime) (m0 : Meta) (r : String) (h : Nat)
    (hp : pyInt r = some h) (hfut : dtLT env.now (runDT date h) = true) :
    (∀ v files, Ev.probe r v files ∉ (IconDatasetMirror_run env ds date m0).events)
    ∧ (∀ v f url dk mk s,
        Ev.transfer r v f url dk mk s ∉ (IconDatasetMirror_run env ds date m0).events) := by
  constructor
  · intro v files hmem
    have hg := mirrorRun_sound env ds date m0 _ hmem
    simp only [evGood, runOK] at hg
    obtain ⟨h2, hp2, _, hnf⟩ := hg
    rw [hp] at hp2
    injection hp2 with he
    subst he
    rw [hfut] at hnf
    cases hnf
  · intro v f url dk mk s hmem
    have hg := mirrorRun_sound env ds date m0 _ hmem
    simp only [evGood, runOK] at hg
    obtain ⟨⟨h2, hp2, _, hnf⟩, _⟩ := hg
    rw [hp] at hp2
    injection hp2 with he
    subst he
    rw [hfut] at hnf
    cases hnf

/-- C6 witness: run "12" of 2026-01-05 is in the future of 2026-01-02T03:00Z. -/
theorem c6_witness :
    pyInt "12" = some 12
    ∧ dtLT wEnv.now (runDT wDateLater 12) = true
    ∧ ((∀ v files, Ev.probe "12" v files ∉ (IconDatasetMirror_run wEnv wDs wDateLater []).events)
      ∧ (∀ v f url dk mk s,
          Ev.transfer "12" v f url dk mk s
            ∉ (IconDatasetMirror_run wEnv wDs wDateLater []).events)) :=
  ⟨by decide, by decide,
    c6_future_run_fully_skipped wEnv wDs wDateLater [] "12" 12 (by decide) (by decide)⟩

/-! ### C9 — unparseable incremental state does not abort the pass

The claim says a pass ends "aborted" exactly when loading/parsing of the
state document fails, and in particular that an existing but unparseable
metadata.json aborts the pass.  The code does the opposite: _load_metadata
catches the parse exception, logs a warning and returns the empty dict (as
its own docstring states), and the pass completes with a fresh empty
state. -/

/-- C9 counterexample: with metadata.json existing but unparseable, the
concrete pass completes — it does not abort. -/
theorem c9_counterexample :
    (IconDatasetMirror_run wEnv wDs wDate (load_metadata true none)).outcome
        = Outcome.completed
    ∧ Outcome.completed ≠ Outcome.aborted :=
  ⟨rfl, by decide⟩

/-- C9 amended: an existing but unparseable state document is swallowed by
the loader — the pass starts from the empty state and (whenever the
configured run identifiers parse as valid hours, i.e. no other exception
escapes the loops) completes; it is not aborted. -/
theorem c9_amended_parse_failure_completes {σ : Type} (env : MirrorEnv σ) (ds : Dataset)
    (date : DateTime)
    (hruns : ∀ r ∈ ds.runs, ∃ h, pyInt r = some h ∧ h < 24) :
    load_metadata true none = ([] : Meta)
    ∧ (IconDatasetMirror_run env ds date (load_metadata true none)).outcome
        = Outcome.completed := by
  refine ⟨rfl, ?_⟩
  simp only [IconDatasetMirror_run]
  rw [if_pos (processRuns_completes env ds (fmtYmd date) date ds.runs _ hruns)]

/-- C9 witness. -/
theorem c9_witness :
    (∀ r ∈ wDs.runs, ∃ h, pyInt r = some h ∧ h < 24)
    ∧ (load_metadata true none = ([] : Meta)
      ∧ (IconDatasetMirror_run wEnv wDs wDate (load_metadata true none)).outcome
          = Outcome.completed) := by
  have hr : ∀ r ∈ wDs.runs, ∃ h, pyInt r = some h ∧ h < 24 := by
    intro rr hrr
    rw [show wDs.runs = ["00"] from rfl, List.mem_singleton] at hrr
    subst hrr
    exact ⟨0, by decide, by decide⟩
  exact ⟨hr, c9_amended_parse_failure_completes wEnv wDs wDate hr⟩

/-! ### C10 — the S3 reader stops at an empty chunk

The claim says reading the _IterableReader until readinto reports end of
file yields the concatenation of all chunks, a zero-length chunk before the
end notwithstanding.  In the code, readinto refills its empty buffer with
exactly one next(iterator) and then returns min(len(b), len(buffer)); when
that next chunk is b"" the returned count is 0, which the reading loop takes
as end of file, so the upload stops at the first empty chunk. -/

/-- C10 counterexample: an empty chunk in the middle truncates the uploaded
bytes. -/
theorem c10_counterexample :
    s3UploadedBytes 4 [[1], [], [2]] ≠ ([[1], [], [2]] : List Chunk).flatten := by
  rw [s3UploadedBytes,
    readUntilEof_characterization 4 (by omega) (irMeasure ⟨[[1], [], [2]], []⟩) _ le_rfl]
  decide

/-- C10 amended: for every positive reader capacity, reading the wrapper
until readinto reports end of file yields the concatenation of the longest
empty-chunk-free leading segment of the chunk sequence — the whole
concatenation exactly when no empty chunk occurs before the end. -/
theorem c10_amended_reader_stops_at_empty (cap : Nat) (chunks : List Chunk)
    (hcap : 1 ≤ cap) :
    s3UploadedBytes cap chunks = (chunks.takeWhile (fun c => !c.isEmpty)).flatten := by
  rw [s3UploadedBytes,
    readUntilEof_characterization cap hcap (irMeasure ⟨chunks, []⟩) _ le_rfl]
  rfl

/-- C10 witness. -/
theorem c10_witness :
    1 ≤ 2
    ∧ s3UploadedBytes 2 [[7], [8, 9]]
        = (([[7], [8, 9]] : List Chunk).takeWhile (fun c => !c.isEmpty)).flatten :=
  ⟨by decide, c10_amended_reader_stops_at_empty 2 [[7], [8, 9]] (by decide)⟩

end Dwd
